import Mathlib

/-!
Verification of the discovery-to-enrichment pipeline of the
academic-primers backend against its design specification.

The Python modules `backend/models.py`, `backend/quality_filter.py`,
`backend/pdf_fetcher.py` and `backend/paper_search.py` are shallowly
embedded below.  Conventions used throughout:

* Python `Optional[T]` becomes `Option T`.
* Python string truthiness (`if s:`) becomes `Option.getD o "" != ""`
  for optional strings, and `Option.getD o 0 != 0` for the optional
  integer `year` (Python treats both `None` and `0` as falsy).
* Counts declared `int >= 0` by the data model (`citation_count`,
  `influential_citation_count`) are embedded as `Nat`; the year, which
  is an arbitrary Python `int`, is embedded as `Option Int`.
* The floating-point `math.log1p` used by the scorer is abstracted as
  an explicit parameter `L : Nat -> Rat` of the scoring function; the
  program instantiates it with a monotone, nonnegative function, and
  every theorem below is proved for the corresponding class of
  parameters, reading float arithmetic as exact arithmetic.
* Network calls are abstracted as oracles: the retry loop of
  `search_semantic_scholar` receives the outcome of each HTTP attempt,
  and `enrich_papers_with_pdfs` receives the outcome of each
  download-and-extract operation (indexed by position in the candidate
  list, matching the `zip` in the source).  Sleeping is recorded as a
  list of slept durations in seconds.
* Python regular expression `\W` (resp. `\w`) is modelled over the
  ASCII alphabet: a word character is a letter, a digit or an
  underscore.
-/

/-- Source `backend/models.py`, class `Paper` (pydantic model).  Field order and
names follow the source; `quality_score` is embedded as `Rat`. -/
structure Paper where
  title : String
  authors : List String
  year : Option Int := none
  abstract : Option String := none
  citation_count : Nat := 0
  influential_citation_count : Nat := 0
  is_open_access : Bool := false
  pdf_url : Option String := none
  venue : Option String := none
  semantic_scholar_id : Option String := none
  doi : Option String := none
  url : Option String := none
  source : String
  quality_score : Rat := 0
  pdf_text : Option String := none
deriving DecidableEq

/-- Python truthiness of an optional string: `None` and `""` are falsy. -/
def optStrTruthy (o : Option String) : Bool := o.getD "" != ""

/-- Python truthiness of the optional integer `year`: `None` and `0` are
falsy. -/
def optIntTruthy (o : Option Int) : Bool := o.getD 0 != 0

/-- ASCII model of `str.lower` on one character. -/
def lowerChar (c : Char) : Char :=
  if c.isUpper then Char.ofNat (c.toNat + 32) else c

/-- ASCII model of Python `str.lower`. -/
def pyLower (s : String) : String := String.mk (s.toList.map lowerChar)

/-- ASCII model of the regex class `\w`: letter, digit or underscore. -/
def isWordChar (c : Char) : Bool := c.isAlphanum || c == '_'

/-- Source `quality_filter._normalize_title`: lower-case the title and delete
every non-word character (`re.sub(r"\W+", "", title.lower())`). -/
def normalize_title (title : String) : String :=
  String.mk ((pyLower title).toList.filter isWordChar)

/-- Citation-impact term of `quality_filter.score_paper`
(`if paper.citation_count > 0: score += math.log1p(paper.citation_count) * 5`). -/
def citationTerm (L : Nat → Rat) (p : Paper) : Rat :=
  if p.citation_count > 0 then L p.citation_count * 5 else 0

/-- Influential-citation term of `score_paper`
(`if paper.influential_citation_count > 0: score += math.log1p(...) * 10`). -/
def influentialTerm (L : Nat → Rat) (p : Paper) : Rat :=
  if p.influential_citation_count > 0 then L p.influential_citation_count * 10 else 0

/-- Recency term of `score_paper`: gated on a truthy year and
`citation_count >= 2`, then bracketed on the year. -/
def recencyTerm (p : Paper) : Rat :=
  if optIntTruthy p.year ∧ p.citation_count ≥ 2 then
    (if p.year.getD 0 ≥ 2020 then 12
     else if p.year.getD 0 ≥ 2015 then 7
     else if p.year.getD 0 ≥ 2010 then 3
     else 0)
  else 0

/-- Venue term of `score_paper` (`if paper.venue: score += 5`). -/
def venueTerm (p : Paper) : Rat :=
  if optStrTruthy p.venue then 5 else 0

/-- Open-access term of `score_paper` (`if paper.is_open_access: score += 4`). -/
def openAccessTerm (p : Paper) : Rat :=
  if p.is_open_access then 4 else 0

/-- Abstract-length term of `score_paper`: guarded by a truthy abstract,
then graduated on its length. -/
def abstractTerm (p : Paper) : Rat :=
  if optStrTruthy p.abstract then
    (if (p.abstract.getD "").length > 1000 then 10
     else if (p.abstract.getD "").length > 300 then 7
     else if (p.abstract.getD "").length > 50 then 3
     else 0)
  else 0

/-- Source `quality_filter.score_paper`: the score accumulated by the sequence
of `score +=` statements, i.e. the sum of the six optional terms.
`L` stands for `math.log1p`. -/
def score_paper (L : Nat → Rat) (p : Paper) : Rat :=
  citationTerm L p + influentialTerm L p + recencyTerm p +
    venueTerm p + openAccessTerm p + abstractTerm p

/-- The `if paper.doi: seen_dois.add(paper.doi)` step of
`quality_filter.deduplicate`. -/
def updateDois (p : Paper) (seen_dois : List String) : List String :=
  if optStrTruthy p.doi then p.doi.getD "" :: seen_dois else seen_dois

/-- Loop body state of `quality_filter.deduplicate`: processes the list
with the accumulated `seen_dois` and `seen_titles` sets (embedded as
lists, used only through membership). -/
def dedupAux : List Paper → List String → List String → List Paper
  | [], _, _ => []
  | p :: rest, seen_dois, seen_titles =>
    if optStrTruthy p.doi ∧ p.doi.getD "" ∈ seen_dois then
      dedupAux rest seen_dois seen_titles
    else if normalize_title p.title ∈ seen_titles then
      dedupAux rest seen_dois seen_titles
    else
      p :: dedupAux rest (updateDois p seen_dois)
        (normalize_title p.title :: seen_titles)

/-- Source `quality_filter.deduplicate`: single pass with initially empty
seen-sets. -/
def deduplicate (papers : List Paper) : List Paper :=
  dedupAux papers [] []

example : normalize_title "Attention, Is All - You Need!" = "attentionisallyouneed" := by decide

/-- Test `startsWithChars a b`: the second list begins with the first. -/
def startsWithChars : List Char → List Char → Bool
  | [], _ => true
  | _ :: _, [] => false
  | a :: as, b :: bs => a == b && startsWithChars as bs

/-- Substring containment on character lists (Python `needle in hay`). -/
def hasSubChars (needle : List Char) : List Char → Bool
  | [] => needle.isEmpty
  | c :: rest => startsWithChars needle (c :: rest) || hasSubChars needle rest

/-- Python substring test `needle in hay` on strings. -/
def strContains (hay needle : String) : Bool :=
  hasSubChars needle.toList hay.toList

/-- The inner `matches` of `quality_filter.filter_and_rank`: every
required phrase occurs (case-insensitively) in title plus abstract. -/
def phraseMatches (required_phrases : List String) (p : Paper) : Bool :=
  required_phrases.all (fun phrase =>
    strContains (pyLower (p.title ++ " " ++ p.abstract.getD "")) (pyLower phrase))

/-- Insert a record into a descending-by-score list, after every record
of greater score and before any record of equal or smaller score. -/
def insertDesc (p : Paper) : List Paper → List Paper
  | [] => [p]
  | q :: rest =>
    if q.quality_score ≤ p.quality_score then p :: q :: rest
    else q :: insertDesc p rest

/-- Stable descending sort on `quality_score`.  Python
`sorted(..., key=lambda p: p.quality_score, reverse=True)` is specified
as a stable sort; any stable descending sort computes the same list, so
the sort is modelled by stable insertion sort (a later record is placed
after every earlier record of equal score). -/
def sortByScoreDesc : List Paper → List Paper
  | [] => []
  | p :: rest => insertDesc p (sortByScoreDesc rest)

/-- Source `quality_filter.filter_and_rank`: drop papers without a >50-character
abstract, enforce required phrases (when the list is non-empty, matching
Python truthiness of the optional argument), deduplicate, attach scores,
stable-sort descending by score, and take the first `top_n`. -/
def filter_and_rank (L : Nat → Rat) (papers : List Paper) (top_n : Nat)
    (required_phrases : List String) : List Paper :=
  let with_abstracts := papers.filter
    (fun p => optStrTruthy p.abstract && decide ((p.abstract.getD "").length > 50))
  let filtered := if required_phrases.isEmpty then with_abstracts
    else with_abstracts.filter (phraseMatches required_phrases)
  let unique := deduplicate filtered
  let scored := unique.map (fun p => { p with quality_score := score_paper L p })
  let ranked := sortByScoreDesc scored
  ranked.take top_n

/-- Candidate test of `pdf_fetcher.enrich_papers_with_pdfs`
(`p.is_open_access and p.pdf_url`, with Python string truthiness). -/
def isCandidate (p : Paper) : Bool := p.is_open_access && optStrTruthy p.pdf_url

/-- The zip loop of `enrich_papers_with_pdfs`: each candidate is paired
with the outcome of its `_download_and_extract` call.  An outcome is
`none` for an exception or a `None` result; a successful non-empty text
(`not result` is falsy) sets `pdf_text` and joins the successes,
anything else joins the failures.  Both output lists keep the
processing order of the appends in the source. -/
def enrichFold : List (Paper × Option String) → List Paper × List Paper
  | [] => ([], [])
  | (p, r) :: rest =>
    let er := enrichFold rest
    if optStrTruthy r then ({ p with pdf_text := r } :: er.1, er.2)
    else (er.1, p :: er.2)

/-- Source `pdf_fetcher.enrich_papers_with_pdfs` from the partition at line 138
on.  The preceding optional Unpaywall URL-resolution step mutates
`pdf_url`/`is_open_access` in place before this point; since every
theorem quantifies over all input lists, the input here is the record
list as it stands when the partition is taken.  `fetch j` is the outcome
of the download-and-extract operation for the `j`-th candidate (the
`zip(oa, results)` of the source). -/
def enrich_papers_with_pdfs (fetch : Nat → Option String) (papers : List Paper) :
    List Paper × List Paper :=
  let oa := papers.filter isCandidate
  if oa.isEmpty then (papers, [])
  else
    let results := (List.range oa.length).map fetch
    let ef := enrichFold (oa.zip results)
    let enriched := papers.filter (fun p => !isCandidate p) ++ ef.1
    if enriched.isEmpty then (papers, []) else (enriched, ef.2)

/-- Outcome of one HTTP attempt of `paper_search.search_semantic_scholar`:
a parsed response (the list of papers the `for item in data.get("data")`
loop yields), an `httpx.HTTPStatusError` with its status code raised by
`raise_for_status`, or any other exception. -/
inductive SSOutcome where
  | success (papers : List Paper)
  | httpError (code : Nat)
  | failure
deriving DecidableEq

/-- The `for attempt in range(max_retries)` loop of
`search_semantic_scholar`.  The fuel argument counts the remaining loop
iterations (initially `max_retries`); the result pairs the returned
paper list with the list of back-off sleeps (in seconds) performed, in
order.  Every exception branch of the source returns normally here: the
function is total, it never raises. -/
def ssLoop (o : Nat → SSOutcome) (max_retries : Nat) : Nat → Nat → List Paper × List Nat
  | _, 0 => ([], [])
  | attempt, fuel + 1 =>
    match o attempt with
    | .success ps => (ps, [])
    | .httpError code =>
      if code = 429 ∧ attempt + 1 < max_retries then
        let r := ssLoop o max_retries (attempt + 1) fuel
        (r.1, 2 ^ (attempt + 1) :: r.2)
      else ([], [])
    | .failure => ([], [])

/-- Source `paper_search.search_semantic_scholar`: run the attempt loop from
attempt 0 with `max_retries` iterations of fuel (the `range` bound). -/
def search_semantic_scholar (o : Nat → SSOutcome) (max_retries : Nat) :
    List Paper × List Nat :=
  ssLoop o max_retries 0 max_retries

/-- Element tree for the PubMed XML payload, mirroring the fragment of
`xml.etree.ElementTree` the parser uses.  The `.text`/`.tail` strings of
ElementTree are modelled as interleaved `text` children in document
order. -/
inductive Xml where
  | elem (tag : String) (attrs : List (String × String)) (children : List Xml)
  | text (s : String)

/-- Child nodes of an element (empty for a text node). -/
def Xml.children : Xml → List Xml
  | .elem _ _ cs => cs
  | .text _ => []

/-- Does this node match an element tag? -/
def Xml.tagIs (t : String) : Xml → Bool
  | .elem tg _ _ => tg == t
  | .text _ => false

/-- Model of `el.find(tag)`: first direct child element with the tag. -/
def Xml.find (x : Xml) (t : String) : Option Xml :=
  (x.children.filter (Xml.tagIs t)).head?

/-- Model of `el.findall(tag)`: all direct child elements with the tag. -/
def Xml.findall (x : Xml) (t : String) : List Xml :=
  x.children.filter (Xml.tagIs t)

mutual

/-- Model of `"".join(el.itertext())`: all text in the subtree, in document
order. -/
def Xml.itertext : Xml → String
  | .text s => s
  | .elem _ _ cs => Xml.itertextList cs

/-- Run `itertext` over a child list. -/
def Xml.itertextList : List Xml → String
  | [] => ""
  | c :: cs => Xml.itertext c ++ Xml.itertextList cs

end

mutual

/-- All descendant nodes in document order, excluding the node itself
(the node set walked by an `.//` path). -/
def Xml.descendants : Xml → List Xml
  | .text _ => []
  | .elem _ _ cs => Xml.descendantsList cs

/-- Run `descendants` over a child list. -/
def Xml.descendantsList : List Xml → List Xml
  | [] => []
  | c :: cs => c :: (Xml.descendants c ++ Xml.descendantsList cs)

end

/-- Model of `el.findall(".//Tag")`: all descendant elements with the tag, in
document order. -/
def Xml.findallDesc (x : Xml) (t : String) : List Xml :=
  x.descendants.filter (Xml.tagIs t)

/-- Model of `el.find(".//Tag")`: first descendant element with the tag. -/
def Xml.findDesc (x : Xml) (t : String) : Option Xml :=
  (x.findallDesc t).head?

/-- Model of `el.text`: the text preceding the first child element, `None` when
the element starts with a child element or is empty. -/
def Xml.leadingText : Xml → Option String
  | .elem _ _ (.text s :: _) => some s
  | _ => none

/-- Model of `el.get(key, default)` on the attribute map. -/
def Xml.attr (x : Xml) (k : String) : Option String :=
  match x with
  | .elem _ attrs _ => ((attrs.filter (fun kv => kv.1 == k)).head?).map Prod.snd
  | .text _ => none

/-- Model of `el.findtext(tag, default)`: text of the first matching direct
child ("" when it has no text), or the default when no child matches. -/
def Xml.findtextD (x : Xml) (t dflt : String) : String :=
  match x.find t with
  | some el => (el.leadingText).getD ""
  | none => dflt

/-- Model of `el.findtext(tag)` with the implicit default `None`. -/
def Xml.findtextOpt (x : Xml) (t : String) : Option String :=
  match x.find t with
  | some el => some ((el.leadingText).getD "")
  | none => none

/-- Python `str.strip()`: remove leading and trailing whitespace. -/
def pyStrip (s : String) : String :=
  String.mk (((s.toList.dropWhile Char.isWhitespace).reverse.dropWhile
    Char.isWhitespace).reverse)

/-- Decimal digit run to a number, `none` on empty or non-digit input. -/
def digitsToNat (cs : List Char) : Option Nat :=
  if cs.isEmpty then none
  else if cs.all Char.isDigit then
    some (cs.foldl (fun n c => n * 10 + (c.toNat - 48)) 0)
  else none

/-- Python `int(s)` on a string: optional sign, decimal digits,
surrounding whitespace allowed; `none` models `ValueError`. -/
def pyInt (s : String) : Option Int :=
  match (pyStrip s).toList with
  | '-' :: rest => (digitsToNat rest).map (fun n => -(n : Int))
  | '+' :: rest => (digitsToNat rest).map (fun n => (n : Int))
  | cs => (digitsToNat cs).map (fun n => (n : Int))

/-- Body of the `for article in root.findall(".//PubmedArticle")` loop
of `paper_search._parse_pubmed_xml`; `none` models the `continue`
branches (missing MedlineCitation or Article node, empty title). -/
def parsePubmedArticle (article : Xml) : Option Paper :=
  match article.find "MedlineCitation" with
  | none => none
  | some medline =>
    match medline.find "Article" with
    | none => none
    | some art =>
      let title := match art.find "ArticleTitle" with
        | some t => pyStrip t.itertext
        | none => ""
      if title == "" then none
      else
        let abstract_parts := match art.find "Abstract" with
          | some ab => (ab.findall "AbstractText").map (fun te =>
              let label := te.attr "Label" |>.getD ""
              let txt := pyStrip te.itertext
              if label != "" then label ++ ": " ++ txt else txt)
          | none => []
        let abstractJ := " ".intercalate abstract_parts
        let abstract := if abstractJ == "" then none else some abstractJ
        let authors := match art.find "AuthorList" with
          | some al => ((al.findall "Author").map (fun a =>
              let last := a.findtextD "LastName" ""
              let fore := a.findtextD "ForeName" ""
              pyStrip (fore ++ " " ++ last))).filter (fun n => n != "")
          | none => []
        let year : Option Int := match art.findDesc "PubDate" with
          | some pd =>
            match pd.find "Year" with
            | some ye =>
              match ye.leadingText with
              | some t => pyInt t
              | none => none
            | none => none
          | none => none
        let venue : Option String := match art.find "Journal" with
          | some j =>
            if optStrTruthy (j.findtextOpt "Title") then j.findtextOpt "Title"
            else j.findtextOpt "ISOAbbreviation"
          | none => none
        let doi : Option String :=
          match ((article.findallDesc "ArticleId").filter
              (fun e => e.attr "IdType" == some "doi")).head? with
          | some e => e.leadingText
          | none => none
        let pmid := medline.findtextOpt "PMID"
        let url := if optStrTruthy pmid then
            some ("https://pubmed.ncbi.nlm.nih.gov/" ++ pmid.getD "" ++ "/")
          else none
        some { title := title, authors := authors, year := year,
               abstract := abstract, citation_count := 0,
               influential_citation_count := 0, is_open_access := false,
               pdf_url := none, venue := venue, doi := doi, url := url,
               source := "pubmed" }

/-- Source `paper_search._parse_pubmed_xml`: `none` input models an
`ET.ParseError` (which returns `[]`); otherwise walk every descendant
`PubmedArticle` node, skipping the ones the loop `continue`s past. -/
def parse_pubmed_xml (x : Option Xml) : List Paper :=
  match x with
  | none => []
  | some root => (root.findallDesc "PubmedArticle").filterMap parsePubmedArticle

/-! ## Claim-side definitions -/

/-- Year bracket of the recency bonus as the specification states it:
`year>=2020 -> +12`; `2015<=year<2020 -> +7`; `2010<=year<2015 -> +3`;
else 0. -/
def recencyFormula (y : Int) : Rat :=
  if y ≥ 2020 then 12 else if y ≥ 2015 then 7 else if y ≥ 2010 then 3 else 0

/-- The additive scoring formula exactly as section 4.4 of the
specification words it: a citation term when `citation_count > 0`, an
influential-citation term when `influential_citation_count > 0`, the
recency bracket when the year is present and `citation_count >= 2`, +5
when a (non-empty, reading "absent or zero" for strings as empty) venue
string is present, +4 when the open-access flag is set, and the
graduated abstract-length bonus, zero when the abstract is absent
(length 0). -/
def score_formula (L : Nat → Rat) (p : Paper) : Rat :=
  (if p.citation_count > 0 then L p.citation_count * 5 else 0)
  + (if p.influential_citation_count > 0 then L p.influential_citation_count * 10 else 0)
  + (if p.year.isSome ∧ p.citation_count ≥ 2 then recencyFormula (p.year.getD 0) else 0)
  + (if optStrTruthy p.venue then 5 else 0)
  + (if p.is_open_access then 4 else 0)
  + (if (p.abstract.getD "").length > 1000 then 10
     else if (p.abstract.getD "").length > 300 then 7
     else if (p.abstract.getD "").length > 50 then 3
     else 0)

/-- Deduplication identity (with the case-sensitive DOI comparison the
code performs): same present-and-non-empty DOI, or same normalized
title. -/
def identMatch (a b : Paper) : Prop :=
  (optStrTruthy a.doi ∧ optStrTruthy b.doi ∧ a.doi.getD "" = b.doi.getD "")
  ∨ normalize_title a.title = normalize_title b.title

instance (a b : Paper) : Decidable (identMatch a b) := by
  unfold identMatch; infer_instance

/-- Erase the enrichment field, leaving the discovery-time record. -/
def clearText (p : Paper) : Paper := { p with pdf_text := none }

/-- Number of back-off retries the Catalog A loop performs with the
default ceiling of 3 attempts: one per leading 429 outcome, at most
two. -/
def retriesTaken (o : Nat → SSOutcome) : Nat :=
  if o 0 = .httpError 429 then (if o 1 = .httpError 429 then 2 else 1) else 0

/-! ## Helper lemmas -/

theorem recencyTerm_eq_formula (p : Paper) :
    recencyTerm p =
      if p.year.isSome ∧ p.citation_count ≥ 2 then recencyFormula (p.year.getD 0) else 0 := by
  unfold recencyTerm recencyFormula optIntTruthy
  rcases hy : p.year with _ | y
  · simp
  · by_cases h0 : y = 0
    · subst h0; simp
    · simp [h0]

theorem abstractTerm_eq_formula (p : Paper) :
    abstractTerm p =
      (if (p.abstract.getD "").length > 1000 then 10
       else if (p.abstract.getD "").length > 300 then 7
       else if (p.abstract.getD "").length > 50 then 3
       else (0 : Rat)) := by
  unfold abstractTerm optStrTruthy
  rcases ha : p.abstract with _ | s
  · simp
  · by_cases h : s = ""
    · subst h; simp
    · simp [h]

/-- C1: for every record (and every reading `L` of `math.log1p`), the
score computed by `score_paper` equals the additive formula of section
4.4 of the specification, term by term. -/
theorem score_paper_eq_formula (L : Nat → Rat) (p : Paper) :
    score_paper L p = score_formula L p := by
  unfold score_paper score_formula citationTerm influentialTerm venueTerm openAccessTerm
  rw [recencyTerm_eq_formula, abstractTerm_eq_formula]

theorem mem_updateDois_of_mem {x : String} (p : Paper) {sd : List String}
    (h : x ∈ sd) : x ∈ updateDois p sd := by
  unfold updateDois
  split
  · exact List.mem_cons_of_mem _ h
  · exact h

theorem mem_of_mem_updateDois {x : String} {p : Paper} {sd : List String}
    (h : x ∈ updateDois p sd) :
    (optStrTruthy p.doi = true ∧ x = p.doi.getD "") ∨ x ∈ sd := by
  unfold updateDois at h
  by_cases hp : optStrTruthy p.doi
  · rw [if_pos hp] at h
    rcases List.mem_cons.mp h with h2 | h2
    · exact Or.inl ⟨hp, h2⟩
    · exact Or.inr h2
  · rw [if_neg hp] at h
    exact Or.inr h

theorem self_mem_updateDois {p : Paper} (sd : List String)
    (hp : optStrTruthy p.doi = true) : p.doi.getD "" ∈ updateDois p sd := by
  unfold updateDois
  rw [if_pos hp]
  exact List.mem_cons_self _ _

theorem dedupAux_sublist (l : List Paper) :
    ∀ sd st, (dedupAux l sd st).Sublist l := by
  induction l with
  | nil => intro sd st; simp [dedupAux]
  | cons p rest ih =>
    intro sd st
    rw [dedupAux]
    split_ifs with h1 h2
    · exact (ih _ _).cons p
    · exact (ih _ _).cons p
    · exact (ih _ _).cons₂ p

theorem nt_not_seen_of_mem_dedupAux (l : List Paper) :
    ∀ sd st q, q ∈ dedupAux l sd st → normalize_title q.title ∉ st := by
  induction l with
  | nil => intro sd st q hq; simp [dedupAux] at hq
  | cons p rest ih =>
    intro sd st q hq
    rw [dedupAux] at hq
    split_ifs at hq with h1 h2
    · exact ih _ _ q hq
    · exact ih _ _ q hq
    · rcases List.mem_cons.mp hq with rfl | hq2
      · exact h2
      · intro hst
        exact ih _ _ q hq2 (List.mem_cons_of_mem _ hst)

theorem doi_not_seen_of_mem_dedupAux (l : List Paper) :
    ∀ sd st q, q ∈ dedupAux l sd st → optStrTruthy q.doi = true →
      q.doi.getD "" ∉ sd := by
  induction l with
  | nil => intro sd st q hq; simp [dedupAux] at hq
  | cons p rest ih =>
    intro sd st q hq hqd
    rw [dedupAux] at hq
    split_ifs at hq with h1 h2
    · exact ih _ _ q hq hqd
    · exact ih _ _ q hq hqd
    · rcases List.mem_cons.mp hq with rfl | hq2
      · intro hsd; exact h1 ⟨hqd, hsd⟩
      · intro hsd
        exact ih _ _ q hq2 hqd (mem_updateDois_of_mem p hsd)

theorem dedupAux_pairwise (l : List Paper) :
    ∀ sd st, (dedupAux l sd st).Pairwise (fun a b => ¬ identMatch a b) := by
  induction l with
  | nil => intro sd st; simp [dedupAux]
  | cons p rest ih =>
    intro sd st
    rw [dedupAux]
    split_ifs with h1 h2
    · exact ih _ _
    · exact ih _ _
    · refine List.Pairwise.cons ?_ (ih _ _)
      intro q hq hm
      rcases hm with ⟨hp, hq', heq⟩ | hnt
      · have hnot := doi_not_seen_of_mem_dedupAux rest _ _ q hq hq'
        apply hnot
        rw [← heq]
        exact self_mem_updateDois sd hp
      · have hnot := nt_not_seen_of_mem_dedupAux rest _ _ q hq
        apply hnot
        rw [← hnt]
        exact List.mem_cons_self _ _

theorem dedupAux_covers (l : List Paper) :
    ∀ sd st q, q ∈ l →
      q ∈ dedupAux l sd st
      ∨ (optStrTruthy q.doi = true ∧ q.doi.getD "" ∈ sd)
      ∨ normalize_title q.title ∈ st
      ∨ ∃ r ∈ dedupAux l sd st, identMatch r q := by
  induction l with
  | nil => intro sd st q hq; simp at hq
  | cons p rest ih =>
    intro sd st q hq
    rw [dedupAux]
    split_ifs with h1 h2
    · rcases List.mem_cons.mp hq with rfl | hq2
      · exact Or.inr (Or.inl ⟨h1.1, h1.2⟩)
      · exact ih _ _ q hq2
    · rcases List.mem_cons.mp hq with rfl | hq2
      · exact Or.inr (Or.inr (Or.inl h2))
      · exact ih _ _ q hq2
    · rcases List.mem_cons.mp hq with rfl | hq2
      · exact Or.inl (List.mem_cons_self _ _)
      · rcases ih (updateDois p sd)
            (normalize_title p.title :: st) q hq2 with h | ⟨hqd, hsd⟩ | hst | ⟨r, hr, hm⟩
        · exact Or.inl (List.mem_cons_of_mem _ h)
        · rcases mem_of_mem_updateDois hsd with ⟨hp, heq⟩ | hsd2
          · refine Or.inr (Or.inr (Or.inr ⟨p, List.mem_cons_self _ _, Or.inl ⟨hp, hqd, ?_⟩⟩))
            exact heq.symm
          · exact Or.inr (Or.inl ⟨hqd, hsd2⟩)
        · rcases List.mem_cons.mp hst with heq | hst2
          · exact Or.inr (Or.inr (Or.inr ⟨p, List.mem_cons_self _ _, Or.inr heq.symm⟩))
          · exact Or.inr (Or.inr (Or.inl hst2))
        · exact Or.inr (Or.inr (Or.inr ⟨r, List.mem_cons_of_mem _ hr, hm⟩))

/-- C2 (amended: DOI comparison is case-sensitive, and a dropped record
is guaranteed an earlier *surviving* match, not necessarily the first
record of its identity class): deduplication keeps a subsequence of the
input (so among survivors the earlier-encountered order is preserved),
no two survivors match in identity (a record is kept only when neither
its present-and-non-empty DOI nor its normalized title was seen), and
every input record either survives or matches a surviving record. -/
theorem deduplicate_characterization (papers : List Paper) :
    (deduplicate papers).Sublist papers
    ∧ (deduplicate papers).Pairwise (fun a b => ¬ identMatch a b)
    ∧ ∀ q ∈ papers, ∃ r ∈ deduplicate papers, r = q ∨ identMatch r q := by
  refine ⟨dedupAux_sublist _ _ _, dedupAux_pairwise _ _ _, ?_⟩
  intro q hq
  rcases dedupAux_covers papers [] [] q hq with h | h | h | h
  · exact ⟨q, h, Or.inl rfl⟩
  · simp at h
  · simp at h
  · obtain ⟨r, hr, hm⟩ := h
    exact ⟨r, hr, Or.inr hm⟩

def c2x : Paper := { title := "alpha", authors := [], doi := some "10.1/X", source := "s" }

def c2y : Paper := { title := "beta", authors := [], doi := some "10.1/x", source := "s" }

def c2qa : Paper := { title := "alpha", authors := [], doi := some "d1", source := "s" }

def c2qb : Paper := { title := "gamma", authors := [], doi := some "d1", source := "s" }

def c2qc : Paper := { title := "gamma!", authors := [], doi := some "d2", source := "s" }

/-- C2 counterexample, both at explicit inputs: (1) a record whose DOI
differs from a seen DOI only in letter case is kept, so the DOI
comparison is not case-insensitive; (2) records `c2qb` and `c2qc` have
matching identity (equal normalized titles), yet the first-encountered
`c2qb` is dropped (its DOI was seen) while the later `c2qc` survives,
because a dropped record registers nothing in the seen-sets. -/
theorem deduplicate_claim_counterexample :
    (pyLower (c2x.doi.getD "") = pyLower (c2y.doi.getD "")
      ∧ deduplicate [c2x, c2y] = [c2x, c2y])
    ∧ (normalize_title c2qb.title = normalize_title c2qc.title
      ∧ deduplicate [c2qa, c2qb, c2qc] = [c2qa, c2qc]) := by decide

/-- C2 witness: the characterization applied to an explicit two-record
input, with the dropped duplicate matched to its survivor. -/
theorem deduplicate_characterization_witness :
    ∃ r ∈ deduplicate [c2qa, { c2qa with source := "t" }],
      r = { c2qa with source := "t" } ∨ identMatch r { c2qa with source := "t" } :=
  (deduplicate_characterization [c2qa, { c2qa with source := "t" }]).2.2
    { c2qa with source := "t" } (by decide)

theorem dedupAux_idem (l : List Paper) :
    ∀ sd st, dedupAux (dedupAux l sd st) sd st = dedupAux l sd st := by
  induction l with
  | nil => intro sd st; simp [dedupAux]
  | cons p rest ih =>
    intro sd st
    rw [dedupAux]
    split_ifs with h1 h2
    · exact ih sd st
    · exact ih sd st
    · rw [dedupAux, if_neg h1, if_neg h2, ih]

/-- C8: deduplication is idempotent, `dedupe(dedupe(X)) = dedupe(X)`
for every record sequence. -/
theorem deduplicate_idem (papers : List Paper) :
    deduplicate (deduplicate papers) = deduplicate papers :=
  dedupAux_idem papers [] []

theorem clearText_mk (p : Paper) (r : Option String) :
    clearText { p with pdf_text := r } = clearText p := rfl

theorem isCandidate_mk (p : Paper) (r : Option String) :
    isCandidate { p with pdf_text := r } = isCandidate p := rfl

/-- The candidate list of `enrich_papers_with_pdfs` (`oa`, without the
enumeration indices, which only serve to rebuild `non_oa_indices`). -/
def oaOf (papers : List Paper) : List Paper := papers.filter isCandidate

/-- The pass-through list of `enrich_papers_with_pdfs`
(`[papers[i] for i in sorted(non_oa_indices)]`). -/
def nonOaOf (papers : List Paper) : List Paper :=
  papers.filter (fun p => !isCandidate p)

/-- The `zip(oa, results)` list of `enrich_papers_with_pdfs`. -/
def zsOf (fetch : Nat → Option String) (papers : List Paper) :
    List (Paper × Option String) :=
  (oaOf papers).zip ((List.range (oaOf papers).length).map fetch)

theorem enrich_eq (fetch : Nat → Option String) (papers : List Paper) :
    enrich_papers_with_pdfs fetch papers =
      if (oaOf papers).isEmpty then (papers, [])
      else if (nonOaOf papers ++ (enrichFold (zsOf fetch papers)).1).isEmpty then
        (papers, [])
      else (nonOaOf papers ++ (enrichFold (zsOf fetch papers)).1,
        (enrichFold (zsOf fetch papers)).2) := rfl

theorem zsOf_map_fst (fetch : Nat → Option String) (papers : List Paper) :
    (zsOf fetch papers).map Prod.fst = oaOf papers := by
  apply List.map_fst_zip
  simp

theorem enrichFold_perm (zs : List (Paper × Option String)) :
    ((enrichFold zs).1.map clearText ++ (enrichFold zs).2.map clearText).Perm
      (zs.map (fun z => clearText z.1)) := by
  induction zs with
  | nil => simp [enrichFold]
  | cons z rest ih =>
    obtain ⟨p, r⟩ := z
    by_cases hr : optStrTruthy r
    · simp only [enrichFold, if_pos hr, List.map_cons, List.cons_append, clearText_mk]
      exact ih.cons _
    · simp only [enrichFold, if_neg hr, List.map_cons]
      exact List.Perm.trans List.perm_middle (ih.cons _)

theorem enrichFold_length (zs : List (Paper × Option String)) :
    (enrichFold zs).1.length + (enrichFold zs).2.length = zs.length := by
  have h := (enrichFold_perm zs).length_eq
  simpa using h

theorem enrichFold_failed_sublist (zs : List (Paper × Option String)) :
    (enrichFold zs).2.Sublist (zs.map Prod.fst) := by
  induction zs with
  | nil => simp [enrichFold]
  | cons z rest ih =>
    obtain ⟨p, r⟩ := z
    by_cases hr : optStrTruthy r
    · simp only [enrichFold, if_pos hr, List.map_cons]
      exact ih.cons p
    · simp only [enrichFold, if_neg hr, List.map_cons]
      exact ih.cons₂ p

theorem enrichFold_success_sublist (zs : List (Paper × Option String)) :
    ((enrichFold zs).1.map clearText).Sublist (zs.map (fun z => clearText z.1)) := by
  induction zs with
  | nil => simp [enrichFold]
  | cons z rest ih =>
    obtain ⟨p, r⟩ := z
    by_cases hr : optStrTruthy r
    · simp only [enrichFold, if_pos hr, List.map_cons, clearText_mk]
      exact ih.cons₂ _
    · simp only [enrichFold, if_neg hr, List.map_cons]
      exact ih.cons _

theorem enrichFold_1_candidate (zs : List (Paper × Option String))
    (h : ∀ z ∈ zs, isCandidate z.1 = true) :
    ∀ q ∈ (enrichFold zs).1, isCandidate q = true := by
  induction zs with
  | nil => simp [enrichFold]
  | cons z rest ih =>
    obtain ⟨p, r⟩ := z
    intro q hq
    by_cases hr : optStrTruthy r
    · simp only [enrichFold, if_pos hr] at hq
      rcases List.mem_cons.mp hq with rfl | hq2
      · rw [isCandidate_mk]
        exact h (p, r) (List.mem_cons_self _ _)
      · exact ih (fun z hz => h z (List.mem_cons_of_mem _ hz)) q hq2
    · simp only [enrichFold, if_neg hr] at hq
      exact ih (fun z hz => h z (List.mem_cons_of_mem _ hz)) q hq

theorem enrichFold_2_candidate (zs : List (Paper × Option String))
    (h : ∀ z ∈ zs, isCandidate z.1 = true) :
    ∀ q ∈ (enrichFold zs).2, isCandidate q = true := by
  intro q hq
  have hq2 : q ∈ zs.map Prod.fst := (enrichFold_failed_sublist zs).subset hq
  obtain ⟨z, hz, rfl⟩ := List.mem_map.mp hq2
  exact h z hz

theorem enrichFold_1_nil (zs : List (Paper × Option String))
    (h : ∀ z ∈ zs, optStrTruthy z.2 = false) : (enrichFold zs).1 = [] := by
  induction zs with
  | nil => simp [enrichFold]
  | cons z rest ih =>
    obtain ⟨p, r⟩ := z
    have hr : optStrTruthy r = false := h (p, r) (List.mem_cons_self _ _)
    simp only [enrichFold, hr, Bool.false_eq_true, if_false]
    exact ih (fun z hz => h z (List.mem_cons_of_mem _ hz))

theorem zsOf_candidate (fetch : Nat → Option String) (papers : List Paper) :
    ∀ z ∈ zsOf fetch papers, isCandidate z.1 = true := by
  intro z hz
  have h1 : z.1 ∈ (zsOf fetch papers).map Prod.fst := List.mem_map_of_mem _ hz
  rw [zsOf_map_fst] at h1
  exact (List.mem_filter.mp h1).2

theorem zsOf_length (fetch : Nat → Option String) (papers : List Paper) :
    (zsOf fetch papers).length = (oaOf papers).length := by
  simp [zsOf]

theorem filter_length_add (papers : List Paper) :
    (papers.filter isCandidate).length
      + (papers.filter (fun p => !isCandidate p)).length = papers.length := by
  have h := (List.filter_append_perm isCandidate papers).length_eq
  simpa using h

theorem zsOf_map_clear (fetch : Nat → Option String) (papers : List Paper) :
    (zsOf fetch papers).map (fun z => clearText z.1)
      = (oaOf papers).map clearText := by
  have h : (fun (z : Paper × Option String) => clearText z.1)
      = clearText ∘ Prod.fst := rfl
  rw [h, ← List.map_map, zsOf_map_fst]

/-- C3: the enrichment output covers the input exactly once:
`len(enriched) + len(failed)` equals the number of
open-access-with-url candidates plus the number of pass-through
records; the two output lists together are, record for record (up to
the `pdf_text` enrichment itself), a permutation of the input; and
every pass-through record lands in `enriched` unchanged and never in
`failed`. -/
theorem enrich_partition (fetch : Nat → Option String) (papers : List Paper) :
    (enrich_papers_with_pdfs fetch papers).1.length
        + (enrich_papers_with_pdfs fetch papers).2.length
      = (papers.filter isCandidate).length
        + (papers.filter (fun p => !isCandidate p)).length
    ∧ (((enrich_papers_with_pdfs fetch papers).1
        ++ (enrich_papers_with_pdfs fetch papers).2).map clearText).Perm
        (papers.map clearText)
    ∧ ∀ p ∈ papers, isCandidate p = false →
        p ∈ (enrich_papers_with_pdfs fetch papers).1
        ∧ p ∉ (enrich_papers_with_pdfs fetch papers).2 := by
  rw [enrich_eq]
  split_ifs with h1 h2
  · refine ⟨?_, by simp, ?_⟩
    · have hnil : papers.filter isCandidate = [] := by
        rw [← List.isEmpty_iff]
        simpa [oaOf] using h1
      have hlen := filter_length_add papers
      rw [hnil] at hlen
      simp only [List.length_nil, Nat.zero_add] at hlen
      dsimp only
      rw [hnil]
      simp only [List.length_nil, Nat.zero_add, Nat.add_zero]
      exact hlen.symm
    · intro p hp _
      exact ⟨hp, by simp⟩
  · refine ⟨?_, by simp, ?_⟩
    · have hlen := filter_length_add papers
      simp
      omega
    · intro p hp _
      exact ⟨hp, by simp⟩
  · dsimp only
    refine ⟨?_, ?_, ?_⟩
    · have hz := enrichFold_length (zsOf fetch papers)
      have hl := zsOf_length fetch papers
      simp only [List.length_append]
      simp only [oaOf, nonOaOf] at hz hl ⊢
      omega
    · have hperm1 := enrichFold_perm (zsOf fetch papers)
      rw [zsOf_map_clear] at hperm1
      have e1 : ((nonOaOf papers ++ (enrichFold (zsOf fetch papers)).1
            ++ (enrichFold (zsOf fetch papers)).2).map clearText)
          = (nonOaOf papers).map clearText
            ++ ((enrichFold (zsOf fetch papers)).1.map clearText
              ++ (enrichFold (zsOf fetch papers)).2.map clearText) := by
        simp [List.map_append]
      rw [e1]
      refine List.Perm.trans (List.Perm.append_left _ hperm1) ?_
      rw [← List.map_append]
      exact List.Perm.map clearText
        (List.Perm.trans List.perm_append_comm (List.filter_append_perm _ _))
    · intro p hp hcand
      constructor
      · apply List.mem_append_left
        exact List.mem_filter.mpr ⟨hp, by simp [hcand]⟩
      · intro hmem
        have hc := enrichFold_2_candidate (zsOf fetch papers)
          (zsOf_candidate fetch papers) p hmem
        rw [hcand] at hc
        exact Bool.false_ne_true hc

def wcand : Paper :=
  { title := "A", authors := [], is_open_access := true,
    pdf_url := some "u", source := "s" }

def wpass : Paper := { title := "B", authors := [], source := "s" }

def wfetch : Nat → Option String := fun _ => some "txt"

/-- C3 witness: the partition invariant applied to an explicit
two-record input, one succeeding candidate and one pass-through. -/
theorem enrich_partition_witness :
    wpass ∈ (enrich_papers_with_pdfs wfetch [wcand, wpass]).1
    ∧ wpass ∉ (enrich_papers_with_pdfs wfetch [wcand, wpass]).2 :=
  (enrich_partition wfetch [wcand, wpass]).2.2 wpass (by decide) (by decide)

/-- C4 (amended): `failed` preserves the pre-enrichment input order (it
is a subsequence of the input); `enriched`, however, is the pass-through
records in input order followed by the successfully enriched candidates
in input order (in the all-failed fallback, the whole input in input
order), so candidate/pass-through relative input order is *not*
preserved inside `enriched`, only the order within each of the two
classes. -/
theorem enrich_order (fetch : Nat → Option String) (papers : List Paper) :
    (enrich_papers_with_pdfs fetch papers).2.Sublist papers
    ∧ (enrich_papers_with_pdfs fetch papers).1
        = papers.filter (fun p => !isCandidate p)
          ++ (enrich_papers_with_pdfs fetch papers).1.filter isCandidate
    ∧ (((enrich_papers_with_pdfs fetch papers).1.filter isCandidate).map
        clearText).Sublist ((papers.filter isCandidate).map clearText) := by
  rw [enrich_eq]
  split_ifs with h1 h2
  · have hnil : papers.filter isCandidate = [] := by
      rw [← List.isEmpty_iff]
      simpa [oaOf] using h1
    have hall : ∀ p ∈ papers, ¬ isCandidate p = true := List.filter_eq_nil_iff.mp hnil
    dsimp only
    refine ⟨List.nil_sublist _, ?_, ?_⟩
    · rw [List.filter_eq_self.mpr (fun a ha => by simp [Bool.eq_false_iff.mpr (hall a ha)]),
        hnil, List.append_nil]
    · rw [hnil]
  · have hsplit := List.append_eq_nil.mp (List.isEmpty_iff.mp h2)
    have hnonOa : papers.filter (fun p => !isCandidate p) = [] := hsplit.1
    have hallc : ∀ p ∈ papers, isCandidate p = true := by
      intro p hp
      have := List.filter_eq_nil_iff.mp hnonOa p hp
      simpa using this
    dsimp only
    refine ⟨List.nil_sublist _, ?_, List.Sublist.refl _⟩
    rw [hnonOa, List.nil_append]
    exact (List.filter_eq_self.mpr hallc).symm
  · dsimp only
    have hfiltered : (nonOaOf papers ++ (enrichFold (zsOf fetch papers)).1).filter
        isCandidate = (enrichFold (zsOf fetch papers)).1 := by
      rw [List.filter_append]
      have hleft : (nonOaOf papers).filter isCandidate = [] := by
        unfold nonOaOf
        rw [List.filter_filter]
        have : (fun a => isCandidate a && !isCandidate a) = fun _ : Paper => false := by
          funext a
          exact Bool.and_not_self _
        rw [this, List.filter_false]
      have hright : ((enrichFold (zsOf fetch papers)).1).filter isCandidate
          = (enrichFold (zsOf fetch papers)).1 :=
        List.filter_eq_self.mpr (enrichFold_1_candidate _ (zsOf_candidate fetch papers))
      rw [hleft, hright, List.nil_append]
    refine ⟨?_, ?_, ?_⟩
    · have hs1 : ((enrichFold (zsOf fetch papers)).2).Sublist
          ((zsOf fetch papers).map Prod.fst) := enrichFold_failed_sublist _
      rw [zsOf_map_fst] at hs1
      exact hs1.trans (List.filter_sublist papers)
    · rw [hfiltered]
      rfl
    · rw [hfiltered]
      have hs2 := enrichFold_success_sublist (zsOf fetch papers)
      rw [zsOf_map_clear] at hs2
      exact hs2
/-- C4 counterexample: with one succeeding candidate at input position 0
and one pass-through at position 1, `enriched` comes back with the
pass-through first — the pre-enrichment input order of the two records
inside the `enriched` partition is reversed, so the claimed order
preservation fails as stated. -/
theorem enrich_order_counterexample :
    ((enrich_papers_with_pdfs wfetch [wcand, wpass]).1.map clearText
        = [clearText wpass, clearText wcand])
    ∧ clearText wcand ≠ clearText wpass
    ∧ ¬ (((enrich_papers_with_pdfs wfetch [wcand, wpass]).1.map clearText).Sublist
        ([wcand, wpass].map clearText)) := by decide

/-- C4 witness: the amended ordering facts at an explicit input. -/
theorem enrich_order_witness :
    (enrich_papers_with_pdfs wfetch [wcand, wpass]).2.Sublist [wcand, wpass]
    ∧ (enrich_papers_with_pdfs wfetch [wcand, wpass]).1
        = [wcand, wpass].filter (fun p => !isCandidate p)
          ++ (enrich_papers_with_pdfs wfetch [wcand, wpass]).1.filter isCandidate
    ∧ (((enrich_papers_with_pdfs wfetch [wcand, wpass]).1.filter isCandidate).map
        clearText).Sublist (([wcand, wpass].filter isCandidate).map clearText) :=
  enrich_order wfetch [wcand, wpass]

/-- C5: when every record is an open-access-with-url candidate and every
download-and-extract outcome is a failure, the orchestrator falls back
to returning the original input as `enriched` with an empty `failed`
list. -/
theorem enrich_all_failed (fetch : Nat → Option String) (papers : List Paper)
    (hcand : ∀ p ∈ papers, isCandidate p = true)
    (hfail : ∀ j, optStrTruthy (fetch j) = false) :
    enrich_papers_with_pdfs fetch papers = (papers, []) := by
  rw [enrich_eq]
  split_ifs with h1 h2
  · rfl
  · rfl
  · exfalso
    apply h2
    rw [List.isEmpty_iff, List.append_eq_nil]
    constructor
    · exact List.filter_eq_nil_iff.mpr (fun p hp => by simp [hcand p hp])
    · apply enrichFold_1_nil
      intro z hz
      have hz2 : z.2 ∈ (List.range (oaOf papers).length).map fetch := by
        obtain ⟨p, r⟩ := z
        exact (List.of_mem_zip hz).2
      obtain ⟨j, _, hj⟩ := List.mem_map.mp hz2
      rw [← hj]
      exact hfail j

/-- C5 witness: one failing candidate; the original list comes back with
an empty failed list. -/
theorem enrich_all_failed_witness :
    enrich_papers_with_pdfs (fun _ => none) [wcand] = ([wcand], []) :=
  enrich_all_failed (fun _ => none) [wcand] (by decide) (fun _ => rfl)

/-- C6: the Catalog A search loop is a total function of the attempt
outcomes (every exception branch of the source returns normally, so it
never raises to its caller): with the default ceiling of 3 attempts it
sleeps once per leading rate-limited (429) outcome — at most twice, the
k-th back-off delay being `2^(k+1)` seconds, the doubling schedule of
the source — and its result is the parsed response of the first
non-429 attempt reached, or the empty list on any other failure or on
exhaustion of the retries. -/
theorem search_semantic_scholar_spec (o : Nat → SSOutcome) :
    (search_semantic_scholar o 3).2
        = (List.range (retriesTaken o)).map (fun k => 2 ^ (k + 1))
    ∧ retriesTaken o ≤ 2
    ∧ (search_semantic_scholar o 3).1
        = (match o (retriesTaken o) with
           | .success ps => ps
           | _ => []) := by
  by_cases h0 : o 0 = .httpError 429
  · by_cases h1 : o 1 = .httpError 429
    · rcases h2 : o 2 with ps2 | c2 | _ <;>
        refine ⟨?_, ?_, ?_⟩ <;>
        simp [search_semantic_scholar, ssLoop, retriesTaken, h0, h1, h2,
          List.range_succ]
    · rcases h1' : o 1 with ps1 | c1 | _
      · refine ⟨?_, ?_, ?_⟩ <;>
          simp [search_semantic_scholar, ssLoop, retriesTaken, h0, h1, h1',
            List.range_succ]
      · have hc1 : c1 ≠ 429 := by
          rintro rfl
          exact h1 h1'
        refine ⟨?_, ?_, ?_⟩ <;>
          simp [search_semantic_scholar, ssLoop, retriesTaken, h0, h1, h1', hc1,
            List.range_succ]
      · refine ⟨?_, ?_, ?_⟩ <;>
          simp [search_semantic_scholar, ssLoop, retriesTaken, h0, h1, h1',
            List.range_succ]
  · rcases h0' : o 0 with ps0 | c0 | _
    · refine ⟨?_, ?_, ?_⟩ <;>
        simp [search_semantic_scholar, ssLoop, retriesTaken, h0, h0']
    · have hc0 : c0 ≠ 429 := by
        rintro rfl
        exact h0 h0'
      refine ⟨?_, ?_, ?_⟩ <;>
        simp [search_semantic_scholar, ssLoop, retriesTaken, h0, h0', hc0]
    · refine ⟨?_, ?_, ?_⟩ <;>
        simp [search_semantic_scholar, ssLoop, retriesTaken, h0, h0']

theorem deduplicate_sublist (l : List Paper) : (deduplicate l).Sublist l :=
  dedupAux_sublist l [] []

theorem insertDesc_perm (p : Paper) (l : List Paper) :
    (insertDesc p l).Perm (p :: l) := by
  induction l with
  | nil => exact List.Perm.refl _
  | cons q rest ih =>
    rw [insertDesc]
    split_ifs
    · exact List.Perm.refl _
    · exact List.Perm.trans (ih.cons q) (List.Perm.swap p q rest)

theorem sortByScoreDesc_perm (l : List Paper) : (sortByScoreDesc l).Perm l := by
  induction l with
  | nil => exact List.Perm.refl _
  | cons p rest ih =>
    rw [sortByScoreDesc]
    exact List.Perm.trans (insertDesc_perm p _) (ih.cons p)

theorem mem_filter_and_rank (L : Nat → Rat) (papers : List Paper) (top_n : Nat)
    (req : List String) (p : Paper)
    (hp : p ∈ filter_and_rank L papers top_n req) :
    ∃ q ∈ papers, p = { q with quality_score := score_paper L q }
      ∧ optStrTruthy q.abstract = true ∧ (q.abstract.getD "").length > 50 := by
  simp only [filter_and_rank] at hp
  have hp1 := (sortByScoreDesc_perm _).subset ((List.take_sublist _ _).subset hp)
  obtain ⟨q, hq, rfl⟩ := List.mem_map.mp hp1
  have hq1 : q ∈ (if req.isEmpty then
      papers.filter (fun p =>
        optStrTruthy p.abstract && decide ((p.abstract.getD "").length > 50))
    else (papers.filter (fun p =>
        optStrTruthy p.abstract && decide ((p.abstract.getD "").length > 50))).filter
      (phraseMatches req)) := (deduplicate_sublist _).subset hq
  have hq2 : q ∈ papers.filter (fun p =>
      optStrTruthy p.abstract && decide ((p.abstract.getD "").length > 50)) := by
    by_cases hreq : req.isEmpty
    · rw [if_pos hreq] at hq1
      exact hq1
    · rw [if_neg hreq] at hq1
      exact (List.filter_sublist _).subset hq1
  obtain ⟨hqp, hcond⟩ := List.mem_filter.mp hq2
  simp only [Bool.and_eq_true, decide_eq_true_eq] at hcond
  exact ⟨q, hqp, rfl, hcond.1, hcond.2⟩

/-- C7: `filter_and_rank` returns at most `top_n` records, and every
returned record has an abstract longer than 50 characters. -/
theorem filter_and_rank_spec (L : Nat → Rat) (papers : List Paper)
    (top_n : Nat) (required_phrases : List String) :
    (filter_and_rank L papers top_n required_phrases).length ≤ top_n
    ∧ ∀ p ∈ filter_and_rank L papers top_n required_phrases,
        (p.abstract.getD "").length > 50 := by
  constructor
  · simp only [filter_and_rank]
    rw [List.length_take]
    exact min_le_left _ _
  · intro p hp
    obtain ⟨q, -, rfl, -, hlen⟩ :=
      mem_filter_and_rank L papers top_n required_phrases p hp
    exact hlen


theorem recencyTerm_nonneg (p : Paper) : 0 ≤ recencyTerm p := by
  unfold recencyTerm
  split_ifs <;> norm_num

theorem citationTerm_mono (L : Nat → Rat) (hmono : Monotone L)
    (hnn : ∀ n, 0 ≤ L n) (p : Paper) (c c' : Nat) (hc : c ≤ c') :
    citationTerm L { p with citation_count := c }
      ≤ citationTerm L { p with citation_count := c' } := by
  unfold citationTerm
  dsimp only
  by_cases h1 : c > 0
  · rw [if_pos h1, if_pos (lt_of_lt_of_le h1 hc)]
    exact mul_le_mul_of_nonneg_right (hmono hc) (by norm_num)
  · rw [if_neg h1]
    by_cases h2 : c' > 0
    · rw [if_pos h2]
      exact mul_nonneg (hnn c') (by norm_num)
    · rw [if_neg h2]

theorem influentialTerm_mono (L : Nat → Rat) (hmono : Monotone L)
    (hnn : ∀ n, 0 ≤ L n) (p : Paper) (i i' : Nat) (hi : i ≤ i') :
    influentialTerm L { p with influential_citation_count := i }
      ≤ influentialTerm L { p with influential_citation_count := i' } := by
  unfold influentialTerm
  dsimp only
  by_cases h1 : i > 0
  · rw [if_pos h1, if_pos (lt_of_lt_of_le h1 hi)]
    exact mul_le_mul_of_nonneg_right (hmono hi) (by norm_num)
  · rw [if_neg h1]
    by_cases h2 : i' > 0
    · rw [if_pos h2]
      exact mul_nonneg (hnn i') (by norm_num)
    · rw [if_neg h2]

theorem recencyTerm_mono (p : Paper) (c c' : Nat) (hc : c ≤ c') :
    recencyTerm { p with citation_count := c }
      ≤ recencyTerm { p with citation_count := c' } := by
  by_cases h2 : c ≥ 2
  · have h2' : c' ≥ 2 := le_trans h2 hc
    unfold recencyTerm
    simp only [h2, h2', and_true]
    exact le_rfl
  · have hz : recencyTerm { p with citation_count := c } = 0 := by
      unfold recencyTerm
      dsimp only
      rw [if_neg (fun h => h2 h.2)]
    rw [hz]
    exact recencyTerm_nonneg _

/-- C9: scoring is monotone in each citation factor holding the other
fields fixed, for every monotone nonnegative reading `L` of
`math.log1p` (which is monotone and nonnegative on the nonnegative
integers): raising `citation_count` never lowers the score, and
likewise for `influential_citation_count`. -/
theorem score_paper_monotone (L : Nat → Rat) (hmono : Monotone L)
    (hnn : ∀ n, 0 ≤ L n) (p : Paper) (c c' i i' : Nat)
    (hc : c ≤ c') (hi : i ≤ i') :
    score_paper L { p with citation_count := c }
        ≤ score_paper L { p with citation_count := c' }
    ∧ score_paper L { p with influential_citation_count := i }
        ≤ score_paper L { p with influential_citation_count := i' } := by
  constructor
  · unfold score_paper
    have h1 := citationTerm_mono L hmono hnn p c c' hc
    have h3 := recencyTerm_mono p c c' hc
    have h2 : influentialTerm L { p with citation_count := c }
        = influentialTerm L { p with citation_count := c' } := rfl
    have h4 : venueTerm { p with citation_count := c }
        = venueTerm { p with citation_count := c' } := rfl
    have h5 : openAccessTerm { p with citation_count := c }
        = openAccessTerm { p with citation_count := c' } := rfl
    have h6 : abstractTerm { p with citation_count := c }
        = abstractTerm { p with citation_count := c' } := rfl
    rw [h2, h4, h5, h6]
    exact add_le_add (add_le_add (add_le_add (add_le_add
      (add_le_add h1 le_rfl) h3) le_rfl) le_rfl) le_rfl
  · unfold score_paper
    have h1 := influentialTerm_mono L hmono hnn p i i' hi
    have h2 : citationTerm L { p with influential_citation_count := i }
        = citationTerm L { p with influential_citation_count := i' } := rfl
    have h3 : recencyTerm { p with influential_citation_count := i }
        = recencyTerm { p with influential_citation_count := i' } := rfl
    have h4 : venueTerm { p with influential_citation_count := i }
        = venueTerm { p with influential_citation_count := i' } := rfl
    have h5 : openAccessTerm { p with influential_citation_count := i }
        = openAccessTerm { p with influential_citation_count := i' } := rfl
    have h6 : abstractTerm { p with influential_citation_count := i }
        = abstractTerm { p with influential_citation_count := i' } := rfl
    rw [h2, h3, h4, h5, h6]
    exact add_le_add (add_le_add (add_le_add (add_le_add
      (add_le_add le_rfl h1) le_rfl) le_rfl) le_rfl) le_rfl

/-- C9 witness: the monotonicity instance at the identity-as-rational
reading of the log (monotone and nonnegative) and a concrete record,
raising the citation count from 1 to 2 and the influential count from
0 to 3. -/
theorem score_paper_monotone_witness :
    score_paper (fun n => (n : Rat)) { wpass with citation_count := 1 }
        ≤ score_paper (fun n => (n : Rat)) { wpass with citation_count := 2 }
    ∧ score_paper (fun n => (n : Rat)) { wpass with influential_citation_count := 0 }
        ≤ score_paper (fun n => (n : Rat)) { wpass with influential_citation_count := 3 } :=
  score_paper_monotone (fun n => (n : Rat)) Nat.mono_cast
    (fun n => Nat.cast_nonneg n) wpass 1 2 0 3 (by decide) (by decide)

/-- C10: every record the PubMed XML parser produces has zero citation
counts, a cleared open-access flag and no full-text URL (the `Paper`
constructor call at the end of the loop passes those literals), so such
a record can never receive the citation-impact, influential-citation,
recency or open-access component of the quality score. -/
theorem parse_pubmed_xml_invariant (x : Option Xml) (p : Paper)
    (hp : p ∈ parse_pubmed_xml x) :
    (p.citation_count = 0 ∧ p.influential_citation_count = 0
      ∧ p.is_open_access = false ∧ p.pdf_url = none)
    ∧ ∀ L : Nat → Rat, citationTerm L p = 0 ∧ influentialTerm L p = 0
        ∧ recencyTerm p = 0 ∧ openAccessTerm p = 0 := by
  have hfields : p.citation_count = 0 ∧ p.influential_citation_count = 0
      ∧ p.is_open_access = false ∧ p.pdf_url = none := by
    rcases x with _ | root
    · simp [parse_pubmed_xml] at hp
    · rw [parse_pubmed_xml] at hp
      obtain ⟨a, -, ha⟩ := List.mem_filterMap.mp hp
      unfold parsePubmedArticle at ha
      split at ha
      · exact absurd ha (by simp)
      · split at ha
        · exact absurd ha (by simp)
        · split at ha
          all_goals try dsimp only at ha
          all_goals split at ha
          all_goals try exact Option.noConfusion ha
          all_goals injection ha with hh
          all_goals subst hh
          all_goals exact ⟨rfl, rfl, rfl, rfl⟩
  refine ⟨hfields, ?_⟩
  intro L
  refine ⟨?_, ?_, ?_, ?_⟩
  · unfold citationTerm
    rw [hfields.1]
    simp
  · unfold influentialTerm
    rw [hfields.2.1]
    simp
  · unfold recencyTerm
    rw [hfields.1]
    simp
  · unfold openAccessTerm
    rw [hfields.2.2.1]
    simp

def wxml : Xml :=
  .elem "PubmedArticleSet" [] [
    .elem "PubmedArticle" [] [
      .elem "MedlineCitation" [] [
        .elem "Article" [] [
          .elem "ArticleTitle" [] [.text "T"]]]]]

def wpm : Paper := { title := "T", authors := [], source := "pubmed" }

/-- C10 witness: the invariant applied to the one record parsed from an
explicit minimal PubMed article. -/
theorem parse_pubmed_xml_invariant_witness :
    (wpm.citation_count = 0 ∧ wpm.influential_citation_count = 0
      ∧ wpm.is_open_access = false ∧ wpm.pdf_url = none)
    ∧ ∀ L : Nat → Rat, citationTerm L wpm = 0 ∧ influentialTerm L wpm = 0
        ∧ recencyTerm wpm = 0 ∧ openAccessTerm wpm = 0 :=
  parse_pubmed_xml_invariant (some wxml) wpm (by decide)
